import Mathlib

/-!
Shallow embedding of `web/shared/src/typeahead.ts` (Zulip's typeahead
matching/ranking engine) and proofs about it.

Strings are modelled as Lean `String`; every JavaScript string operation used
by the source is defined below on the underlying code-point list (`String.data`),
so each definition is executable and decidable on concrete inputs.

The two Unicode tables that `String.prototype.normalize("NFKD")` and the
`\p{M}` character class consult are parameters of the model (`nfkd`, the full
compatibility decomposition of a code point, and `isMark`, the combining-mark
test): the theorems below hold for every choice of tables.
-/

/-- JS `s.toLowerCase()`, modelled code-point-wise with `Char.toLower`. -/
def lowerStr (s : String) : String :=
  String.mk (s.data.map Char.toLower)

/-- `listStarts p l`: the list `p` occurs at the very start of `l`. -/
def listStarts : List Char → List Char → Bool
  | [], _ => true
  | _ :: _, [] => false
  | p :: ps, x :: xs => p == x && listStarts ps xs

/-- JS `s.startsWith(q)`. -/
def jsStartsWith (s q : String) : Bool :=
  listStarts q.data s.data

/-- `isSubL n h`: `n` occurs contiguously somewhere inside `h`. -/
def isSubL : List Char → List Char → Bool
  | n, [] => listStarts n []
  | n, x :: t => listStarts n (x :: t) || isSubL n t

/-- JS `s.includes(q)`: `q` is a contiguous substring of `s`. -/
def jsIncludes (s q : String) : Bool :=
  isSubL q.data s.data

/-- JS `s.split(c)` for a single-character separator, on code-point lists:
split at every occurrence of `c`, keeping empty pieces (`"".split(c) = [""]`). -/
def jsSplitChars (c : Char) : List Char → List (List Char)
  | [] => [[]]
  | x :: xs =>
    match jsSplitChars c xs with
    | [] => [[]]
    | h :: t => if x = c then [] :: h :: t else (x :: h) :: t

/-- JS `s.split(c)` for a single-character separator. -/
def jsSplit (c : Char) (s : String) : List String :=
  (jsSplitChars c s.data).map String.mk

/-- `remove_diacritics` from the source: `s.normalize("NFKD").replace(/\p{M}/gu, "")`.
NFKD-decompose every code point with the table `nfkd`, then delete every
combining mark (the code points `isMark` accepts). -/
def remove_diacritics (nfkd : Char → List Char) (isMark : Char → Bool) (s : String) : String :=
  String.mk ((s.data.flatMap nfkd).filter (fun c => !isMark c))

/-- `query_matches_string` from the source.  The source string is lower-cased
and diacritic-stripped (the query is not — callers pre-normalize it); a query
without the separator is matched as a contiguous substring, a query with the
separator must have every token be a prefix of some source token.  The
separator is modelled as a single character, matching both call sites
(`" "` and `"_"`).  The source's `source !== undefined` guard inside `some`
is dead code (JS `split` never yields `undefined`) and is dropped. -/
def query_matches_string (nfkd : Char → List Char) (isMark : Char → Bool)
    (query source_str : String) (split_char : Char) : Bool :=
  let source1 := remove_diacritics nfkd isMark (lowerStr source_str)
  if !(query.data.contains split_char) then
    jsIncludes source1 query
  else
    let queries := jsSplit split_char query
    let source_arr := jsSplit split_char source1
    queries.all (fun q => source_arr.any (fun s => jsStartsWith s q))

/-- `word_boundary_chars` from the source: space, underscore, slash and hyphen. -/
def word_boundary_chars : String := " _/-"

/-- The test of the regex built from a character class of the four
word-boundary characters followed by the escaped `lower_query`, run against
`lower_item`: since `lower_query` is regex-escaped (matched literally), the
regex accepts exactly when some word-boundary character immediately followed
by `lower_query` occurs contiguously inside `lower_item`. -/
def word_boundary_test (lower_query lower_item : String) : Bool :=
  word_boundary_chars.data.any (fun c => isSubL (c :: lower_query.data) lower_item.data)

/-- The five buckets `triage_raw` returns. -/
structure TriageResult (T : Type) where
  exact_matches : List T
  begins_with_case_sensitive_matches : List T
  begins_with_case_insensitive_matches : List T
  word_boundary_matches : List T
  no_matches : List T
deriving Repr, DecidableEq

/-- The loop of `triage_raw`: classify each element by the source's
if/else-if chain, preserving input order within each bucket.  `lower_query`
is passed in, computed once as in the source. -/
def triage_raw_go {T : Type} (query lower_query : String) (get_item : T → String) :
    List T → TriageResult T
  | [] => ⟨[], [], [], [], []⟩
  | obj :: objs =>
    let r := triage_raw_go query lower_query get_item objs
    let item := get_item obj
    let lower_item := lowerStr item
    if lower_item = lower_query then
      { r with exact_matches := obj :: r.exact_matches }
    else if jsStartsWith item query then
      { r with begins_with_case_sensitive_matches :=
          obj :: r.begins_with_case_sensitive_matches }
    else if jsStartsWith lower_item lower_query then
      { r with begins_with_case_insensitive_matches :=
          obj :: r.begins_with_case_insensitive_matches }
    else if word_boundary_test lower_query lower_item then
      { r with word_boundary_matches := obj :: r.word_boundary_matches }
    else
      { r with no_matches := obj :: r.no_matches }

/-- `triage_raw` from the source.  `const lower_query = query ? query.toLowerCase() : ""`
is the conditional in the second argument (JS `""` is falsy). -/
def triage_raw {T : Type} (query : String) (objs : List T) (get_item : T → String) :
    TriageResult T :=
  triage_raw_go query (if query = "" then "" else lowerStr query) get_item objs

/-- JS `arr.sort(cmp)` for a consistent comparator: a stable sort keeping `a`
before `b` when `cmp a b ≤ 0`. -/
def sortCmp {T : Type} (cmp : T → T → Int) (l : List T) : List T :=
  l.mergeSort (fun a b => decide (cmp a b ≤ 0))

/-- The pair `triage` returns. -/
structure TriageSplit (T : Type) where
  matches' : List T
  rest : List T
deriving Repr, DecidableEq

/-- `triage` from the source: run `triage_raw`; with a comparator, sort the
exact bucket, the two begins-with buckets concatenated into one group, the
word-boundary bucket and the no-match bucket, and concatenate; without one,
concatenate the four match tiers in priority order. -/
def triage {T : Type} (query : String) (objs : List T) (get_item : T → String)
    (sorting_comparator : Option (T → T → Int)) : TriageSplit T :=
  let r := triage_raw query objs get_item
  match sorting_comparator with
  | some cmp =>
    { matches' :=
        sortCmp cmp r.exact_matches
          ++ sortCmp cmp (r.begins_with_case_sensitive_matches
              ++ r.begins_with_case_insensitive_matches)
          ++ sortCmp cmp r.word_boundary_matches,
      rest := sortCmp cmp r.no_matches }
  | none =>
    { matches' :=
        r.exact_matches
          ++ r.begins_with_case_sensitive_matches
          ++ r.begins_with_case_insensitive_matches
          ++ r.word_boundary_matches,
      rest := r.no_matches }

/-- The `Emoji` union from the source: a realm (custom) emoji
(`reaction_type` `"realm_emoji"` or `"zulip_extra_emoji"`, `is_realm_emoji: true`)
or a unicode emoji carrying its code (`is_realm_emoji: false`). -/
inductive Emoji : Type
  | realm (emoji_name : String) (is_zulip_extra : Bool)
  | unicode (emoji_name : String) (emoji_code : String)
deriving Repr, DecidableEq

/-- The `emoji_name` field, common to both variants. -/
def Emoji.emoji_name : Emoji → String
  | .realm n _ => n
  | .unicode n _ => n

/-- The `is_realm_emoji` flag: `true` exactly on the non-unicode variants. -/
def Emoji.is_realm_emoji : Emoji → Bool
  | .realm _ _ => true
  | .unicode _ _ => false

/-- `popular_emojis` from the source: the curated codes given extra precedence. -/
def popular_emojis : List String :=
  ["1f44d", "1f389", "1f642", "2764", "1f6e0", "1f419"]

/-- JS `query.replace(/ /g, "_")`. -/
def replace_spaces (s : String) : String :=
  String.mk (s.data.map (fun c => if c = ' ' then '_' else c))

/-- The query normalization at the top of `sort_emojis`: replace spaces with
underscores, then lower-case (no diacritic stripping there). -/
def emoji_query (query : String) : String :=
  lowerStr (replace_spaces query)

/-- `decent_match` from `sort_emojis` (`query` already normalized): some
underscore-separated piece of the lower-cased name starts with the query. -/
def decent_match (query name : String) : Bool :=
  (jsSplit '_' (lowerStr name)).any (fun piece => jsStartsWith piece query)

/-- `is_popular` from `sort_emojis`: a unicode emoji whose code is in the
curated popular set and whose name decently matches the query. -/
def is_popular (query : String) : Emoji → Bool
  | .realm _ _ => false
  | .unicode name code => decide (code ∈ popular_emojis) && decent_match query name

/-- `realm_emoji_names` from `sort_emojis`: the names of the custom (realm)
emojis of the input. -/
def realm_emoji_names (objs : List Emoji) : List String :=
  (objs.filter Emoji.is_realm_emoji).map Emoji.emoji_name

/-- `prioritise_realm_emojis` from `sort_emojis`: stable partition, custom
emojis first. -/
def prioritise_realm_emojis (emojis : List Emoji) : List Emoji :=
  emojis.filter (fun e => e.is_realm_emoji)
    ++ emojis.filter (fun e => !e.is_realm_emoji)

/-- The concatenation `sorted_results_with_possible_duplicates` built inside
`sort_emojis`: perfect name matches, then popular matches, then the triage
matches and rest, each triage part with custom emojis prioritized. -/
def sorted_results_with_possible_duplicates (objs : List Emoji) (query : String) :
    List Emoji :=
  let q := emoji_query query
  let without_perfect_matches := objs.filter (fun o => !decide (o.emoji_name = q))
  let others := without_perfect_matches.filter (fun o => !is_popular q o)
  let triage_results := triage q others Emoji.emoji_name none
  objs.filter (fun o => decide (o.emoji_name = q))
    ++ without_perfect_matches.filter (fun o => is_popular q o)
    ++ prioritise_realm_emojis triage_results.matches'
    ++ prioritise_realm_emojis triage_results.rest

/-- The de-duplication loop at the end of `sort_emojis`.  `codes` is the
`unicode_emoji_codes` set accumulated so far (a list used only through
membership).  Custom emojis are always kept; a unicode emoji is kept only if
its code has not been emitted and no custom emoji claims its name, and only
then is its code added to the set. -/
def dedup_emojis (realm_names codes : List String) : List Emoji → List Emoji
  | [] => []
  | e :: rest =>
    match e with
    | .realm n z => .realm n z :: dedup_emojis realm_names codes rest
    | .unicode n c =>
      if c ∉ codes ∧ n ∉ realm_names then
        .unicode n c :: dedup_emojis realm_names (c :: codes) rest
      else
        dedup_emojis realm_names codes rest

/-- `sort_emojis` from the source: build the ranked concatenation, then
de-duplicate it against the input's realm-emoji names. -/
def sort_emojis (objs : List Emoji) (query : String) : List Emoji :=
  dedup_emojis (realm_emoji_names objs) []
    (sorted_results_with_possible_duplicates objs query)

/-- The running state of the de-duplication loop: the `unicode_emoji_codes`
set after a walk over the given entries (codes of the kept unicode entries,
most recent first, on top of the initial `codes`). -/
def dedup_state (realm_names codes : List String) : List Emoji → List String
  | [] => codes
  | e :: rest =>
    match e with
    | .realm _ _ => dedup_state realm_names codes rest
    | .unicode n c =>
      if c ∉ codes ∧ n ∉ realm_names then
        dedup_state realm_names (c :: codes) rest
      else
        dedup_state realm_names codes rest

/-- The keep/drop decision the de-duplication loop takes at each position,
as a list of flags parallel to the input. -/
def dedup_keep_flags (realm_names codes : List String) : List Emoji → List Bool
  | [] => []
  | e :: rest =>
    match e with
    | .realm _ _ => true :: dedup_keep_flags realm_names codes rest
    | .unicode n c =>
      if c ∉ codes ∧ n ∉ realm_names then
        true :: dedup_keep_flags realm_names (c :: codes) rest
      else
        false :: dedup_keep_flags realm_names codes rest

/-- Select the elements of a list whose parallel flag is `true`. -/
def select_flags : List Emoji → List Bool → List Emoji
  | [], _ => []
  | _ :: _, [] => []
  | e :: es, b :: bs =>
    if b then e :: select_flags es bs else select_flags es bs

/-- Claim C5 as stated, at one input: every input item whose name equals the
normalized query appears in `sort_emojis`'s output, before every output item
whose name differs from it. -/
def claim_perfect_appears_first (objs : List Emoji) (query : String) : Prop :=
  ∀ x ∈ objs, x.emoji_name = emoji_query query →
    ∀ y ∈ sort_emojis objs query, y.emoji_name ≠ emoji_query query →
      x ∈ sort_emojis objs query ∧
        (sort_emojis objs query).indexOf x < (sort_emojis objs query).indexOf y

/-- A counterexample input for claim C5: the unicode emoji `"q"` is a perfect
match for the query `"q"` but is suppressed by the same-named custom emoji,
while the non-perfect `"qq"` stays in the output. -/
def c5_input : List Emoji :=
  [.unicode "q" "1", .realm "q" false, .unicode "qq" "2"]

/-- An identity NFKD table: every code point is its own (trivial) full
decomposition.  Correct for the ASCII inputs of the concrete witnesses. -/
def nfkd_id : Char → List Char := fun c => [c]

/-- A mark table with no combining marks: correct for ASCII inputs. -/
def no_marks : Char → Bool := fun _ => false

/-- A tiny concrete NFKD table: `'Ä'` fully decomposes into `'A'` followed by
the combining diaeresis `'̈'`; everything else is stable. -/
def nfkd_ex : Char → List Char :=
  fun c => if c = 'Ä' then ['A', '̈'] else [c]

/-- The mark table matching `nfkd_ex`: the combining diaeresis is the one mark. -/
def is_mark_ex : Char → Bool :=
  fun c => c == '̈'

/-- The first test of `triage_raw`'s chain: lower-cased item equals the
lower-cased query. -/
def cond_exact (lq item : String) : Bool :=
  decide (lowerStr item = lq)

/-- The second test (reached when the first fails): the raw item starts with
the raw query, case-sensitively. -/
def cond_cs (query lq item : String) : Bool :=
  !cond_exact lq item && jsStartsWith item query

/-- The third test: the lower-cased item starts with the lower-cased query. -/
def cond_ci (query lq item : String) : Bool :=
  !cond_exact lq item &&
    (!jsStartsWith item query && jsStartsWith (lowerStr item) lq)

/-- The fourth test: the word-boundary regex accepts the lower-cased item. -/
def cond_wb (query lq item : String) : Bool :=
  !cond_exact lq item &&
    (!jsStartsWith item query &&
      (!jsStartsWith (lowerStr item) lq && word_boundary_test lq (lowerStr item)))

/-- The fall-through case: all four tests fail. -/
def cond_no (query lq item : String) : Bool :=
  !cond_exact lq item &&
    (!jsStartsWith item query &&
      (!jsStartsWith (lowerStr item) lq && !word_boundary_test lq (lowerStr item)))

theorem lowerStr_empty_iff (s : String) : lowerStr s = "" ↔ s = "" := by
  cases s with
  | mk data =>
    constructor
    · intro h
      have h2 : data.map Char.toLower = [] := congrArg String.data h
      have h3 : data = [] := List.map_eq_nil_iff.mp h2
      rw [h3]
    · intro h
      rw [h]
      rfl

theorem jsStartsWith_empty (s : String) : jsStartsWith s "" = true := rfl

theorem listStarts_iff (p : List Char) : ∀ l, listStarts p l = true ↔ ∃ t, l = p ++ t := by
  induction p with
  | nil =>
    intro l
    simp [listStarts]
  | cons a ps ih =>
    intro l
    cases l with
    | nil =>
      simp [listStarts]
    | cons x xs =>
      simp only [listStarts, Bool.and_eq_true, beq_iff_eq, ih, List.cons_append]
      constructor
      · rintro ⟨rfl, t, rfl⟩
        exact ⟨t, rfl⟩
      · rintro ⟨t, ht⟩
        injection ht with h1 h2
        exact ⟨h1.symm, t, h2⟩

theorem isSubL_iff (n : List Char) : ∀ h, isSubL n h = true ↔ ∃ a b, h = a ++ (n ++ b) := by
  intro h
  induction h with
  | nil =>
    simp only [isSubL, listStarts_iff]
    constructor
    · rintro ⟨t, ht⟩
      exact ⟨[], t, ht⟩
    · rintro ⟨a, b, hab⟩
      cases a with
      | nil => exact ⟨b, hab⟩
      | cons y a' => simp at hab
  | cons x t ih =>
    simp only [isSubL, Bool.or_eq_true, listStarts_iff, ih]
    constructor
    · rintro (⟨u, hu⟩ | ⟨a, b, hab⟩)
      · exact ⟨[], u, hu⟩
      · exact ⟨x :: a, b, by rw [hab]; rfl⟩
    · rintro ⟨a, b, hab⟩
      cases a with
      | nil => exact Or.inl ⟨b, hab⟩
      | cons y a' =>
        injection hab with h1 h2
        exact Or.inr ⟨a', b, h2⟩

theorem perm_pull2 {T : Type} (x : T) (a b : List T) :
    (a ++ x :: b).Perm (x :: (a ++ b)) :=
  List.perm_middle

theorem perm_pull3 {T : Type} (x : T) (a b c : List T) :
    (a ++ (b ++ x :: c)).Perm (x :: (a ++ (b ++ c))) :=
  (List.Perm.append_left a List.perm_middle).trans List.perm_middle

theorem perm_pull4 {T : Type} (x : T) (a b c d : List T) :
    (a ++ (b ++ (c ++ x :: d))).Perm (x :: (a ++ (b ++ (c ++ d)))) :=
  (List.Perm.append_left a (perm_pull3 x b c d)).trans List.perm_middle

theorem perm_pull5 {T : Type} (x : T) (a b c d e : List T) :
    (a ++ (b ++ (c ++ (d ++ x :: e)))).Perm (x :: (a ++ (b ++ (c ++ (d ++ e))))) :=
  (List.Perm.append_left a (perm_pull4 x b c d e)).trans List.perm_middle

theorem filter_cascade_perm {T : Type} (c1 c2 c3 c4 : T → Bool) (l : List T) :
    (l.filter c1
      ++ (l.filter (fun o => !c1 o && c2 o)
        ++ (l.filter (fun o => !c1 o && (!c2 o && c3 o))
          ++ (l.filter (fun o => !c1 o && (!c2 o && (!c3 o && c4 o)))
            ++ l.filter (fun o => !c1 o && (!c2 o && (!c3 o && !c4 o))))))).Perm l := by
  induction l with
  | nil => rfl
  | cons x l ih =>
    by_cases h1 : c1 x
    · simp only [List.filter_cons, h1, Bool.not_true, Bool.false_and, Bool.and_self,
        if_true, if_false, Bool.true_and, ite_true, ite_false, Bool.false_eq_true,
        List.cons_append]
      exact ih.cons x
    · have h1' : c1 x = false := Bool.eq_false_iff.mpr h1
      by_cases h2 : c2 x
      · simp only [List.filter_cons, h1', h2, Bool.not_false, Bool.true_and,
          Bool.false_and, Bool.not_true, ite_true, ite_false, Bool.false_eq_true,
          Bool.and_self, List.cons_append]
        exact (perm_pull2 x _ _).trans (ih.cons x)
      · have h2' : c2 x = false := Bool.eq_false_iff.mpr h2
        by_cases h3 : c3 x
        · simp only [List.filter_cons, h1', h2', h3, Bool.not_false, Bool.true_and,
            Bool.false_and, Bool.not_true, ite_true, ite_false, Bool.false_eq_true,
            Bool.and_self, List.cons_append]
          exact (perm_pull3 x _ _ _).trans (ih.cons x)
        · have h3' : c3 x = false := Bool.eq_false_iff.mpr h3
          by_cases h4 : c4 x
          · simp only [List.filter_cons, h1', h2', h3', h4, Bool.not_false,
              Bool.true_and, Bool.false_and, Bool.not_true, ite_true, ite_false,
              Bool.false_eq_true, Bool.and_self, List.cons_append]
            exact (perm_pull4 x _ _ _ _).trans (ih.cons x)
          · have h4' : c4 x = false := Bool.eq_false_iff.mpr h4
            simp only [List.filter_cons, h1', h2', h3', h4', Bool.not_false,
              Bool.true_and, Bool.false_and, Bool.and_self, ite_true, ite_false,
              Bool.false_eq_true, List.cons_append]
            exact (perm_pull5 x _ _ _ _ _).trans (ih.cons x)

theorem triage_raw_go_eq {T : Type} (query lq : String) (g : T → String) (objs : List T) :
    triage_raw_go query lq g objs =
      ⟨objs.filter (fun o => cond_exact lq (g o)),
       objs.filter (fun o => cond_cs query lq (g o)),
       objs.filter (fun o => cond_ci query lq (g o)),
       objs.filter (fun o => cond_wb query lq (g o)),
       objs.filter (fun o => cond_no query lq (g o))⟩ := by
  induction objs with
  | nil => rfl
  | cons o os ih =>
    simp only [triage_raw_go, ih]
    by_cases h1 : lowerStr (g o) = lq
    · simp [cond_exact, cond_cs, cond_ci, cond_wb, cond_no, List.filter_cons, h1]
    · by_cases h2 : jsStartsWith (g o) query
      · simp [cond_exact, cond_cs, cond_ci, cond_wb, cond_no, List.filter_cons, h1, h2]
      · have h2' : jsStartsWith (g o) query = false := Bool.eq_false_iff.mpr h2
        by_cases h3 : jsStartsWith (lowerStr (g o)) lq
        · simp [cond_exact, cond_cs, cond_ci, cond_wb, cond_no, List.filter_cons,
            h1, h2', h3]
        · have h3' : jsStartsWith (lowerStr (g o)) lq = false := Bool.eq_false_iff.mpr h3
          by_cases h4 : word_boundary_test lq (lowerStr (g o))
          · simp [cond_exact, cond_cs, cond_ci, cond_wb, cond_no, List.filter_cons,
              h1, h2', h3', h4]
          · have h4' : word_boundary_test lq (lowerStr (g o)) = false :=
              Bool.eq_false_iff.mpr h4
            simp [cond_exact, cond_cs, cond_ci, cond_wb, cond_no, List.filter_cons,
              h1, h2', h3', h4']

theorem triage_raw_eq_go {T : Type} (query : String) (objs : List T) (g : T → String) :
    triage_raw query objs g = triage_raw_go query (lowerStr query) g objs := by
  unfold triage_raw
  by_cases h : query = ""
  · rw [h]
    rfl
  · rw [if_neg h]

/-- The concatenation of the five buckets of `triage_raw`, in bucket order,
is a permutation of the input. -/
theorem triage_raw_concat_perm {T : Type} (query : String) (objs : List T)
    (get_item : T → String) :
    ((triage_raw query objs get_item).exact_matches
      ++ ((triage_raw query objs get_item).begins_with_case_sensitive_matches
        ++ ((triage_raw query objs get_item).begins_with_case_insensitive_matches
          ++ ((triage_raw query objs get_item).word_boundary_matches
            ++ (triage_raw query objs get_item).no_matches)))).Perm objs := by
  rw [triage_raw_eq_go, triage_raw_go_eq]
  simpa only [cond_exact, cond_cs, cond_ci, cond_wb, cond_no] using
    filter_cascade_perm (fun o => decide (lowerStr (get_item o) = lowerStr query))
      (fun o => jsStartsWith (get_item o) query)
      (fun o => jsStartsWith (lowerStr (get_item o)) (lowerStr query))
      (fun o => word_boundary_test (lowerStr query) (lowerStr (get_item o))) objs

/-- C1: for every query, item list and projection, the five buckets of
`triage_raw` partition the input exactly: their concatenation in bucket
order is a permutation of the input (so each input occurrence lands in
exactly one bucket and none is duplicated), and each bucket is a sublist of
the input (input order is preserved within each bucket). -/
theorem triage_raw_partitions_input {T : Type} (query : String) (objs : List T)
    (get_item : T → String) :
    ((triage_raw query objs get_item).exact_matches
      ++ ((triage_raw query objs get_item).begins_with_case_sensitive_matches
        ++ ((triage_raw query objs get_item).begins_with_case_insensitive_matches
          ++ ((triage_raw query objs get_item).word_boundary_matches
            ++ (triage_raw query objs get_item).no_matches)))).Perm objs
    ∧ (triage_raw query objs get_item).exact_matches.Sublist objs
    ∧ (triage_raw query objs get_item).begins_with_case_sensitive_matches.Sublist objs
    ∧ (triage_raw query objs get_item).begins_with_case_insensitive_matches.Sublist objs
    ∧ (triage_raw query objs get_item).word_boundary_matches.Sublist objs
    ∧ (triage_raw query objs get_item).no_matches.Sublist objs := by
  refine ⟨triage_raw_concat_perm query objs get_item, ?_, ?_, ?_, ?_, ?_⟩ <;>
    rw [triage_raw_eq_go, triage_raw_go_eq] <;> exact List.filter_sublist _

/-- C2: `triage_raw` classifies each item by the fixed priority chain, first
match winning: exact lower-cased equality, then raw case-sensitive
starts-with, then lower-cased starts-with, then the word-boundary regex
(the lower-cased item contains the lower-cased query immediately preceded by
a space, underscore, slash or hyphen), else no match.  Each bucket is the
input filtered by its test conjoined with the negations of all earlier
tests; the last conjunct spells the word-boundary test out declaratively. -/
theorem triage_raw_priority_order {T : Type} (query : String) (objs : List T)
    (get_item : T → String) :
    ((triage_raw query objs get_item).exact_matches
        = objs.filter (fun o => cond_exact (lowerStr query) (get_item o))
      ∧ (triage_raw query objs get_item).begins_with_case_sensitive_matches
        = objs.filter (fun o => cond_cs query (lowerStr query) (get_item o))
      ∧ (triage_raw query objs get_item).begins_with_case_insensitive_matches
        = objs.filter (fun o => cond_ci query (lowerStr query) (get_item o))
      ∧ (triage_raw query objs get_item).word_boundary_matches
        = objs.filter (fun o => cond_wb query (lowerStr query) (get_item o))
      ∧ (triage_raw query objs get_item).no_matches
        = objs.filter (fun o => cond_no query (lowerStr query) (get_item o)))
    ∧ (∀ item : String, cond_exact (lowerStr query) item
        = decide (lowerStr item = lowerStr query))
    ∧ (∀ item : String, cond_cs query (lowerStr query) item
        = (!decide (lowerStr item = lowerStr query) && jsStartsWith item query))
    ∧ (∀ lq li : String, word_boundary_test lq li = true ↔
        ∃ c ∈ [' ', '_', '/', '-'], ∃ a b, li.data = a ++ ((c :: lq.data) ++ b)) := by
  have hchars : word_boundary_chars.data = [' ', '_', '/', '-'] := rfl
  refine ⟨?_, ?_, ?_, ?_⟩
  · rw [triage_raw_eq_go, triage_raw_go_eq]
    exact ⟨rfl, rfl, rfl, rfl, rfl⟩
  · intro item
    rfl
  · intro item
    rfl
  · intro lq li
    constructor
    · intro h
      rcases List.any_eq_true.mp h with ⟨c, hc, hsub⟩
      rw [hchars] at hc
      exact ⟨c, hc, (isSubL_iff _ _).mp hsub⟩
    · rintro ⟨c, hc, a, b, hab⟩
      apply List.any_eq_true.mpr
      refine ⟨c, ?_, (isSubL_iff _ _).mpr ⟨a, b, hab⟩⟩
      rw [hchars]
      exact hc

/-- C9: with an empty query, `triage_raw` sends every item whose projected
string is empty to `exact_matches` and every other item to
`begins_with_case_sensitive_matches` (both in input order); the remaining
three buckets are always empty, so nothing is classified as a non-match. -/
theorem triage_raw_empty_query {T : Type} (objs : List T) (get_item : T → String) :
    triage_raw "" objs get_item =
      ⟨objs.filter (fun o => decide (get_item o = "")),
       objs.filter (fun o => !decide (get_item o = "")),
       [], [], []⟩ := by
  rw [triage_raw_eq_go, triage_raw_go_eq]
  have h0 : lowerStr "" = "" := rfl
  rw [h0]
  have hdec : ∀ item : String, decide (lowerStr item = "") = decide (item = "") := by
    intro item
    rw [decide_eq_decide]
    exact lowerStr_empty_iff item
  simp only [TriageResult.mk.injEq]
  refine ⟨?_, ?_, ?_, ?_, ?_⟩
  · apply List.filter_congr
    intro o _
    simp only [cond_exact, hdec]
  · apply List.filter_congr
    intro o _
    simp only [cond_cs, cond_exact, hdec, jsStartsWith_empty, Bool.and_true]
  · have hci : (fun o => cond_ci "" "" (get_item o)) = (fun _ => false) := by
      funext o
      simp [cond_ci, jsStartsWith_empty]
    rw [hci, List.filter_false]
  · have hwb : (fun o => cond_wb "" "" (get_item o)) = (fun _ => false) := by
      funext o
      simp [cond_wb, jsStartsWith_empty]
    rw [hwb, List.filter_false]
  · have hno : (fun o => cond_no "" "" (get_item o)) = (fun _ => false) := by
      funext o
      simp [cond_no, jsStartsWith_empty]
    rw [hno, List.filter_false]

/-- C7: with a comparator, `triage` returns the exact bucket sorted, then the
two begins-with buckets concatenated (case-sensitive first) and sorted as one
group, then the word-boundary bucket sorted, as `matches`; `rest` is the
no-match bucket sorted.  Without a comparator, `matches` is the fixed-order
concatenation of the four match tiers and `rest` the no-match bucket as is.
In both cases `matches ++ rest` is a permutation of the input. -/
theorem triage_spec {T : Type} (query : String) (objs : List T)
    (get_item : T → String) (cmp : T → T → Int) :
    (triage query objs get_item (some cmp) =
      ⟨sortCmp cmp (triage_raw query objs get_item).exact_matches
        ++ sortCmp cmp ((triage_raw query objs get_item).begins_with_case_sensitive_matches
            ++ (triage_raw query objs get_item).begins_with_case_insensitive_matches)
        ++ sortCmp cmp (triage_raw query objs get_item).word_boundary_matches,
       sortCmp cmp (triage_raw query objs get_item).no_matches⟩)
    ∧ (triage query objs get_item none =
      ⟨(triage_raw query objs get_item).exact_matches
        ++ (triage_raw query objs get_item).begins_with_case_sensitive_matches
        ++ (triage_raw query objs get_item).begins_with_case_insensitive_matches
        ++ (triage_raw query objs get_item).word_boundary_matches,
       (triage_raw query objs get_item).no_matches⟩)
    ∧ ((triage query objs get_item (some cmp)).matches'
        ++ (triage query objs get_item (some cmp)).rest).Perm objs
    ∧ ((triage query objs get_item none).matches'
        ++ (triage query objs get_item none).rest).Perm objs := by
  refine ⟨rfl, rfl, ?_, ?_⟩
  · show ((sortCmp cmp (triage_raw query objs get_item).exact_matches
        ++ sortCmp cmp ((triage_raw query objs get_item).begins_with_case_sensitive_matches
            ++ (triage_raw query objs get_item).begins_with_case_insensitive_matches)
        ++ sortCmp cmp (triage_raw query objs get_item).word_boundary_matches)
      ++ sortCmp cmp (triage_raw query objs get_item).no_matches).Perm objs
    have hE : (sortCmp cmp (triage_raw query objs get_item).exact_matches).Perm
        (triage_raw query objs get_item).exact_matches := List.mergeSort_perm _ _
    have hG : (sortCmp cmp ((triage_raw query objs get_item).begins_with_case_sensitive_matches
        ++ (triage_raw query objs get_item).begins_with_case_insensitive_matches)).Perm
        ((triage_raw query objs get_item).begins_with_case_sensitive_matches
          ++ (triage_raw query objs get_item).begins_with_case_insensitive_matches) :=
      List.mergeSort_perm _ _
    have hW : (sortCmp cmp (triage_raw query objs get_item).word_boundary_matches).Perm
        (triage_raw query objs get_item).word_boundary_matches := List.mergeSort_perm _ _
    have hN : (sortCmp cmp (triage_raw query objs get_item).no_matches).Perm
        (triage_raw query objs get_item).no_matches := List.mergeSort_perm _ _
    have h1 := ((hE.append hG).append hW).append hN
    refine h1.trans ?_
    have h2 := triage_raw_concat_perm query objs get_item
    refine List.Perm.trans ?_ h2
    simp [List.append_assoc]
  · show (((triage_raw query objs get_item).exact_matches
        ++ (triage_raw query objs get_item).begins_with_case_sensitive_matches
        ++ (triage_raw query objs get_item).begins_with_case_insensitive_matches
        ++ (triage_raw query objs get_item).word_boundary_matches)
      ++ (triage_raw query objs get_item).no_matches).Perm objs
    have h2 := triage_raw_concat_perm query objs get_item
    refine List.Perm.trans ?_ h2
    simp [List.append_assoc]

/-- C3: when the query contains the separator, `query_matches_string` holds
iff every token of the query (split on the separator) is a prefix of at
least one token of the lower-cased, diacritic-stripped source — order
independent, and several query tokens may match the same source token. -/
theorem query_matches_string_multi_token (nfkd : Char → List Char) (isMark : Char → Bool)
    (query source_str : String) (split_char : Char)
    (h : split_char ∈ query.data) :
    query_matches_string nfkd isMark query source_str split_char = true ↔
      ∀ q ∈ jsSplit split_char query,
        ∃ s ∈ jsSplit split_char (remove_diacritics nfkd isMark (lowerStr source_str)),
          jsStartsWith s q = true := by
  have hc : query.data.contains split_char = true := by simpa using h
  unfold query_matches_string
  simp [hc, List.all_eq_true, List.any_eq_true]
  intro hn
  exact absurd h hn

/-- Witness for C3 at the spec's concrete examples: `"ab c"` matches
`"ab cd ef"` on spaces, `"b cd"` does not. -/
theorem query_matches_string_multi_token_witness :
    (' ' ∈ ("ab c" : String).data)
    ∧ query_matches_string nfkd_id no_marks "ab c" "ab cd ef" ' ' = true
    ∧ query_matches_string nfkd_id no_marks "b cd" "ab cd ef" ' ' = false := by
  refine ⟨by decide, ?_, by decide⟩
  exact (query_matches_string_multi_token nfkd_id no_marks "ab c" "ab cd ef" ' '
    (by decide)).mpr (by decide)

/-- Counterexample to C4 as stated: the claim predicts the match succeeds iff
the lower-cased source contains the lower-cased query, but
`query_matches_string` never lower-cases the query.  At query `"A"` and
source `"a"` (no separator in the query) the claimed equivalence fails:
`"a".toLowerCase()` contains `"A".toLowerCase()`, yet the function returns
`false`. -/
theorem query_matches_string_single_token_counterexample :
    ('_' ∉ ("A" : String).data)
    ∧ ¬ ((query_matches_string nfkd_id no_marks "A" "a" '_' = true) ↔
        (jsIncludes (lowerStr "a") (lowerStr "A") = true)) := by
  decide

/-- C4 amended: when the query contains no occurrence of the separator,
`query_matches_string` returns true iff the lower-cased, diacritic-stripped
source contains the raw query — not lower-cased by this function — as a
contiguous substring. -/
theorem query_matches_string_single_token (nfkd : Char → List Char) (isMark : Char → Bool)
    (query source_str : String) (split_char : Char)
    (h : split_char ∉ query.data) :
    query_matches_string nfkd isMark query source_str split_char = true ↔
      ∃ a b, (remove_diacritics nfkd isMark (lowerStr source_str)).data
        = a ++ (query.data ++ b) := by
  have hc : query.data.contains split_char = false := by simpa using h
  unfold query_matches_string
  simp only [hc, Bool.not_false, if_true]
  exact isSubL_iff query.data (remove_diacritics nfkd isMark (lowerStr source_str)).data

/-- Witness for the amended C4 at the claim's concrete examples:
`"ab"` matches source `"xaby"` with separator `'_'`, and does not match
`"xy"`. -/
theorem query_matches_string_single_token_witness :
    ('_' ∉ ("ab" : String).data)
    ∧ query_matches_string nfkd_id no_marks "ab" "xaby" '_' = true
    ∧ query_matches_string nfkd_id no_marks "ab" "xy" '_' = false := by
  refine ⟨by decide, ?_, by decide⟩
  exact (query_matches_string_single_token nfkd_id no_marks "ab" "xaby" '_'
    (by decide)).mpr ⟨['x'], ['y'], by decide⟩

theorem flatMap_stable {nfkd : Char → List Char} :
    ∀ m : List Char, (∀ c ∈ m, nfkd c = [c]) → m.flatMap nfkd = m := by
  intro m
  induction m with
  | nil => intro _; rfl
  | cons c cs ih =>
    intro h
    rw [List.flatMap_cons, h c (by simp), ih (fun x hx => h x (by simp [hx])),
      List.singleton_append]

/-- C8: diacritic removal is idempotent.  The hypothesis is the defining
property of a full (NFKD) decomposition table: every code point occurring in
a decomposition is itself stable (decomposes to itself). -/
theorem remove_diacritics_idempotent (nfkd : Char → List Char) (isMark : Char → Bool)
    (hfull : ∀ d c, c ∈ nfkd d → nfkd c = [c]) (s : String) :
    remove_diacritics nfkd isMark (remove_diacritics nfkd isMark s)
      = remove_diacritics nfkd isMark s := by
  unfold remove_diacritics
  congr 1
  have h1 : ∀ c ∈ (s.data.flatMap nfkd).filter (fun c => !isMark c), nfkd c = [c] := by
    intro c hcf
    have hcm : c ∈ s.data.flatMap nfkd := (List.mem_filter.mp hcf).1
    rcases List.mem_flatMap.mp hcm with ⟨d, _, hc⟩
    exact hfull d c hc
  rw [flatMap_stable _ h1, List.filter_filter]
  simp

/-- The table `nfkd_ex` is full: every code point in a decomposition is
itself stable. -/
theorem nfkd_ex_full : ∀ d c, c ∈ nfkd_ex d → nfkd_ex c = [c] := by
  intro d c hc
  by_cases hd : d = 'Ä'
  · subst hd
    have hc' : c = 'A' ∨ c = '̈' := by simpa [nfkd_ex] using hc
    rcases hc' with h | h
    · subst h; decide
    · subst h; decide
  · have hc' : c = d := by simpa [nfkd_ex, hd] using hc
    subst hc'
    simp [nfkd_ex, hd]

/-- Witness for C8 at a concrete table and input: `"Äbc"` normalizes to
`"Abc"` (the combining diaeresis is stripped), and a second normalization
changes nothing. -/
theorem remove_diacritics_idempotent_witness :
    remove_diacritics nfkd_ex is_mark_ex "Äbc" = "Abc"
    ∧ remove_diacritics nfkd_ex is_mark_ex (remove_diacritics nfkd_ex is_mark_ex "Äbc")
      = remove_diacritics nfkd_ex is_mark_ex "Äbc" :=
  ⟨by decide, remove_diacritics_idempotent nfkd_ex is_mark_ex nfkd_ex_full "Äbc"⟩

theorem triage_none_perm {T : Type} (query : String) (objs : List T)
    (get_item : T → String) :
    ((triage query objs get_item none).matches'
      ++ (triage query objs get_item none).rest).Perm objs := by
  show (((triage_raw query objs get_item).exact_matches
      ++ (triage_raw query objs get_item).begins_with_case_sensitive_matches
      ++ (triage_raw query objs get_item).begins_with_case_insensitive_matches
      ++ (triage_raw query objs get_item).word_boundary_matches)
    ++ (triage_raw query objs get_item).no_matches).Perm objs
  refine List.Perm.trans ?_ (triage_raw_concat_perm query objs get_item)
  simp [List.append_assoc]

theorem prioritise_realm_emojis_perm (l : List Emoji) :
    (prioritise_realm_emojis l).Perm l := by
  unfold prioritise_realm_emojis
  exact List.filter_append_perm _ l

theorem sorted_results_perm (objs : List Emoji) (query : String) :
    (sorted_results_with_possible_duplicates objs query).Perm objs := by
  simp only [sorted_results_with_possible_duplicates]
  rw [List.append_assoc, List.append_assoc]
  set q := emoji_query query
  set without := objs.filter (fun o => !decide (o.emoji_name = q))
  set others := without.filter (fun o => !is_popular q o)
  set tr := triage q others Emoji.emoji_name none
  have h1 : ((prioritise_realm_emojis tr.matches')
      ++ (prioritise_realm_emojis tr.rest)).Perm others :=
    ((prioritise_realm_emojis_perm _).append (prioritise_realm_emojis_perm _)).trans
      (triage_none_perm _ _ _)
  have h2 : ((without.filter (fun o => is_popular q o)) ++ others).Perm without :=
    List.filter_append_perm _ _
  have h3 : ((objs.filter (fun o => decide (o.emoji_name = q))) ++ without).Perm objs :=
    List.filter_append_perm _ _
  exact (List.Perm.append_left _ ((List.Perm.append_left _ h1).trans h2)).trans h3

theorem dedup_emojis_sublist (realm_names : List String) :
    ∀ (l : List Emoji) (codes : List String),
      (dedup_emojis realm_names codes l).Sublist l := by
  intro l
  induction l with
  | nil => intro _; exact List.Sublist.refl _
  | cons e rest ih =>
    intro codes
    cases e with
    | realm n z =>
      exact (ih codes).cons₂ _
    | unicode n c =>
      by_cases hk : c ∉ codes ∧ n ∉ realm_names
      · simp only [dedup_emojis, if_pos hk]
        exact (ih (c :: codes)).cons₂ _
      · simp only [dedup_emojis, if_neg hk]
        exact (ih codes).cons _

theorem dedup_emojis_append (realm_names : List String) :
    ∀ (a b : List Emoji) (codes : List String),
      dedup_emojis realm_names codes (a ++ b)
        = dedup_emojis realm_names codes a
          ++ dedup_emojis realm_names (dedup_state realm_names codes a) b := by
  intro a
  induction a with
  | nil => intro b codes; rfl
  | cons e rest ih =>
    intro b codes
    cases e with
    | realm n z =>
      simp only [List.cons_append, dedup_emojis, dedup_state, List.append_eq, ih]
    | unicode n c =>
      by_cases hk : c ∉ codes ∧ n ∉ realm_names
      · simp only [List.cons_append, dedup_emojis, dedup_state, if_pos hk,
          List.append_eq, ih]
      · simp only [List.cons_append, dedup_emojis, dedup_state, if_neg hk,
          List.append_eq, ih]

theorem dedup_emojis_eq_select (realm_names : List String) :
    ∀ (l : List Emoji) (codes : List String),
      dedup_emojis realm_names codes l
        = select_flags l (dedup_keep_flags realm_names codes l) := by
  intro l
  induction l with
  | nil => intro _; rfl
  | cons e rest ih =>
    intro codes
    cases e with
    | realm n z =>
      simp [dedup_emojis, dedup_keep_flags, select_flags, ih]
    | unicode n c =>
      by_cases hk : c ∉ codes ∧ n ∉ realm_names
      · simp [dedup_emojis, dedup_keep_flags, if_pos hk, select_flags, ih]
      · simp [dedup_emojis, dedup_keep_flags, if_neg hk, select_flags, ih]

theorem dedup_keep_flags_realm (realm_names : List String) :
    ∀ (l : List Emoji) (codes : List String) (i : Nat) (n : String) (z : Bool),
      l[i]? = some (.realm n z) →
        (dedup_keep_flags realm_names codes l)[i]? = some true := by
  intro l
  induction l with
  | nil =>
    intro codes i n z h
    simp at h
  | cons e rest ih =>
    intro codes i n z h
    cases e with
    | realm n0 z0 =>
      cases i with
      | zero =>
        simp only [dedup_keep_flags, List.getElem?_cons_zero]
      | succ i =>
        simp only [List.getElem?_cons_succ] at h
        simp only [dedup_keep_flags, List.getElem?_cons_succ]
        exact ih codes i n z h
    | unicode n0 c0 =>
      cases i with
      | zero =>
        simp at h
      | succ i =>
        simp only [List.getElem?_cons_succ] at h
        by_cases hk : c0 ∉ codes ∧ n0 ∉ realm_names
        · simp only [dedup_keep_flags, if_pos hk, List.getElem?_cons_succ]
          exact ih (c0 :: codes) i n z h
        · simp only [dedup_keep_flags, if_neg hk, List.getElem?_cons_succ]
          exact ih codes i n z h

theorem dedup_keep_flags_spec (realm_names : List String) :
    ∀ (l : List Emoji) (codes : List String) (i : Nat) (n c : String),
      l[i]? = some (.unicode n c) →
        ((dedup_keep_flags realm_names codes l)[i]? = some true ↔
          (n ∉ realm_names ∧ c ∉ codes ∧
            ∀ j, j < i → ∀ n2, l[j]? = some (.unicode n2 c) →
              (dedup_keep_flags realm_names codes l)[j]? = some false)) := by
  intro l
  induction l with
  | nil =>
    intro codes i n c h
    simp at h
  | cons e rest ih =>
    intro codes i n c h
    cases e with
    | realm n0 z0 =>
      cases i with
      | zero => simp at h
      | succ i =>
        simp only [List.getElem?_cons_succ] at h
        simp only [dedup_keep_flags, List.getElem?_cons_succ]
        rw [ih codes i n c h]
        constructor
        · rintro ⟨h1, h2, h3⟩
          refine ⟨h1, h2, ?_⟩
          intro j hj n2 hn2
          cases j with
          | zero =>
            simp at hn2
          | succ j =>
            simp only [List.getElem?_cons_succ] at hn2 ⊢
            exact h3 j (Nat.succ_lt_succ_iff.mp hj) n2 hn2
        · rintro ⟨h1, h2, h3⟩
          refine ⟨h1, h2, ?_⟩
          intro j hj n2 hn2
          have hres := h3 (j + 1) (Nat.succ_lt_succ hj) n2 (by simpa using hn2)
          simpa using hres
    | unicode n0 c0 =>
      by_cases hk : c0 ∉ codes ∧ n0 ∉ realm_names
      · cases i with
        | zero =>
          simp only [List.getElem?_cons_zero, Option.some.injEq, Emoji.unicode.injEq] at h
          obtain ⟨rfl, rfl⟩ := h
          simp only [dedup_keep_flags, if_pos hk, List.getElem?_cons_zero]
          constructor
          · intro _
            exact ⟨hk.2, hk.1, fun j hj => absurd hj (Nat.not_lt_zero j)⟩
          · intro _
            trivial
        | succ i =>
          simp only [List.getElem?_cons_succ] at h
          simp only [dedup_keep_flags, if_pos hk, List.getElem?_cons_succ]
          rw [ih (c0 :: codes) i n c h]
          constructor
          · rintro ⟨h1, h2, h3⟩
            have h2' : ¬c = c0 ∧ c ∉ codes := by
              simpa [not_or] using h2
            refine ⟨h1, h2'.2, ?_⟩
            intro j hj n2 hn2
            cases j with
            | zero =>
              simp only [List.getElem?_cons_zero, Option.some.injEq,
                Emoji.unicode.injEq] at hn2
              exact absurd hn2.2.symm h2'.1
            | succ j =>
              simp only [List.getElem?_cons_succ] at hn2 ⊢
              exact h3 j (Nat.succ_lt_succ_iff.mp hj) n2 hn2
          · rintro ⟨h1, h2, h3⟩
            have hne : ¬c = c0 := by
              intro hEq
              have hcontr := h3 0 (Nat.succ_pos i) n0 (by simp [hEq])
              simp only [dedup_keep_flags, if_pos hk, List.getElem?_cons_zero] at hcontr
              simp at hcontr
            refine ⟨h1, ?_, ?_⟩
            · simp only [List.mem_cons, not_or]
              exact ⟨hne, h2⟩
            · intro j hj n2 hn2
              have hres := h3 (j + 1) (Nat.succ_lt_succ hj) n2 (by simpa using hn2)
              simpa using hres
      · cases i with
        | zero =>
          simp only [List.getElem?_cons_zero, Option.some.injEq, Emoji.unicode.injEq] at h
          obtain ⟨rfl, rfl⟩ := h
          simp only [dedup_keep_flags, if_neg hk, List.getElem?_cons_zero]
          constructor
          · intro hfalse
            simp at hfalse
          · rintro ⟨h1, h2, _⟩
            exact absurd ⟨h2, h1⟩ hk
        | succ i =>
          simp only [List.getElem?_cons_succ] at h
          simp only [dedup_keep_flags, if_neg hk, List.getElem?_cons_succ]
          rw [ih codes i n c h]
          constructor
          · rintro ⟨h1, h2, h3⟩
            refine ⟨h1, h2, ?_⟩
            intro j hj n2 hn2
            cases j with
            | zero =>
              simp only [dedup_keep_flags, if_neg hk, List.getElem?_cons_zero]
            | succ j =>
              simp only [List.getElem?_cons_succ] at hn2 ⊢
              exact h3 j (Nat.succ_lt_succ_iff.mp hj) n2 hn2
          · rintro ⟨h1, h2, h3⟩
            refine ⟨h1, h2, ?_⟩
            intro j hj n2 hn2
            have hres := h3 (j + 1) (Nat.succ_lt_succ hj) n2 (by simpa using hn2)
            simpa using hres

/-- C6: the de-duplication pass of `sort_emojis` is the flag selection over
the ranked concatenation; every custom (realm) entry's flag is true (custom
entries are always kept); a unicode entry's flag is true exactly when no
custom emoji anywhere in the input shares its name and no earlier kept
unicode entry of the walked sequence has the same code (first kept
occurrence wins for duplicate codes, even under different names).  The last
conjunct characterizes the realm-name set as the names of the input's
custom emojis. -/
theorem sort_emojis_dedup_rule (objs : List Emoji) (query : String) :
    (sort_emojis objs query
      = select_flags (sorted_results_with_possible_duplicates objs query)
          (dedup_keep_flags (realm_emoji_names objs) []
            (sorted_results_with_possible_duplicates objs query)))
    ∧ (∀ (i : Nat) (n : String) (z : Bool),
        (sorted_results_with_possible_duplicates objs query)[i]?
          = some (Emoji.realm n z) →
        (dedup_keep_flags (realm_emoji_names objs) []
            (sorted_results_with_possible_duplicates objs query))[i]? = some true)
    ∧ (∀ (i : Nat) (n c : String),
        (sorted_results_with_possible_duplicates objs query)[i]?
          = some (Emoji.unicode n c) →
        ((dedup_keep_flags (realm_emoji_names objs) []
            (sorted_results_with_possible_duplicates objs query))[i]? = some true ↔
          (n ∉ realm_emoji_names objs ∧
            ∀ (j : Nat), j < i → ∀ (n2 : String),
              (sorted_results_with_possible_duplicates objs query)[j]?
                  = some (Emoji.unicode n2 c) →
                (dedup_keep_flags (realm_emoji_names objs) []
                    (sorted_results_with_possible_duplicates objs query))[j]?
                  = some false)))
    ∧ (∀ n, n ∈ realm_emoji_names objs ↔
        ∃ e ∈ objs, e.is_realm_emoji = true ∧ e.emoji_name = n) := by
  refine ⟨dedup_emojis_eq_select _ _ _,
    fun i n z h => dedup_keep_flags_realm _ _ _ i n z h, ?_, ?_⟩
  · intro i n c h
    rw [dedup_keep_flags_spec _ _ _ i n c h]
    constructor
    · rintro ⟨h1, _, h3⟩
      exact ⟨h1, h3⟩
    · rintro ⟨h1, h3⟩
      exact ⟨h1, by simp, h3⟩
  · intro n
    simp only [realm_emoji_names, List.mem_map, List.mem_filter]
    constructor
    · rintro ⟨e, ⟨he, hr⟩, hn⟩
      exact ⟨e, he, hr, hn⟩
    · rintro ⟨e, he, hr, hn⟩
      exact ⟨e, ⟨he, hr⟩, hn⟩

theorem dedup_split_names (realm : List String) (qname : String) (A E : List Emoji)
    (hA : ∀ e ∈ A, e.emoji_name = qname) (hE : ∀ e ∈ E, e.emoji_name ≠ qname) :
    ∃ P R, dedup_emojis realm [] (A ++ E) = P ++ R
      ∧ (∀ e ∈ P, e.emoji_name = qname)
      ∧ (∀ e ∈ R, e.emoji_name ≠ qname) := by
  refine ⟨dedup_emojis realm [] A,
    dedup_emojis realm (dedup_state realm [] A) E,
    dedup_emojis_append realm A E [], ?_, ?_⟩
  · intro e he
    exact hA e ((dedup_emojis_sublist realm A []).subset he)
  · intro e he
    exact hE e ((dedup_emojis_sublist realm E _).subset he)

/-- Counterexample to C5 as stated: in `c5_input` with query `"q"`, the
unicode emoji `"q"` is a perfect name match yet is absent from the output
(its name is shadowed by the custom emoji `"q"`), while the non-perfect
`"qq"` is present — so not every perfect match appears before every
non-perfect item. -/
theorem sort_emojis_perfect_first_counterexample :
    ¬ claim_perfect_appears_first c5_input "q" := by
  unfold claim_perfect_appears_first
  decide

/-- C5 amended: whenever a perfect match survives de-duplication it precedes
every non-perfect item: the output of `sort_emojis` is a block of items whose
name equals the normalized query followed by a block of items whose name
differs (a perfect match can be dropped entirely when a custom emoji shares
its name or an earlier perfect match emitted its code). -/
theorem sort_emojis_perfect_first_amended (objs : List Emoji) (query : String) :
    ∃ P R, sort_emojis objs query = P ++ R
      ∧ (∀ e ∈ P, e.emoji_name = emoji_query query)
      ∧ (∀ e ∈ R, e.emoji_name ≠ emoji_query query) := by
  have hwo : ∀ e ∈ objs.filter (fun o => !decide (o.emoji_name = emoji_query query)),
      e.emoji_name ≠ emoji_query query := by
    intro e he
    have h2 := (List.mem_filter.mp he).2
    simpa using h2
  have hsorted : sorted_results_with_possible_duplicates objs query
      = objs.filter (fun o => decide (o.emoji_name = emoji_query query))
        ++ ((objs.filter (fun o => !decide (o.emoji_name = emoji_query query))).filter
              (fun o => is_popular (emoji_query query) o)
          ++ (prioritise_realm_emojis
              (triage (emoji_query query)
                ((objs.filter (fun o => !decide (o.emoji_name = emoji_query query))).filter
                  (fun o => !is_popular (emoji_query query) o))
                Emoji.emoji_name none).matches'
            ++ prioritise_realm_emojis
              (triage (emoji_query query)
                ((objs.filter (fun o => !decide (o.emoji_name = emoji_query query))).filter
                  (fun o => !is_popular (emoji_query query) o))
                Emoji.emoji_name none).rest)) := by
    simp only [sorted_results_with_possible_duplicates]
    simp [List.append_assoc]
  have hA : ∀ e ∈ objs.filter (fun o => decide (o.emoji_name = emoji_query query)),
      e.emoji_name = emoji_query query := by
    intro e he
    have h2 := (List.mem_filter.mp he).2
    simpa using h2
  have hE : ∀ e ∈ (objs.filter (fun o => !decide (o.emoji_name = emoji_query query))).filter
              (fun o => is_popular (emoji_query query) o)
          ++ (prioritise_realm_emojis
              (triage (emoji_query query)
                ((objs.filter (fun o => !decide (o.emoji_name = emoji_query query))).filter
                  (fun o => !is_popular (emoji_query query) o))
                Emoji.emoji_name none).matches'
            ++ prioritise_realm_emojis
              (triage (emoji_query query)
                ((objs.filter (fun o => !decide (o.emoji_name = emoji_query query))).filter
                  (fun o => !is_popular (emoji_query query) o))
                Emoji.emoji_name none).rest),
      e.emoji_name ≠ emoji_query query := by
    intro e he
    rcases List.mem_append.mp he with hB | hCD
    · exact hwo e (List.mem_filter.mp hB).1
    · have hothers : e ∈ (objs.filter
          (fun o => !decide (o.emoji_name = emoji_query query))).filter
            (fun o => !is_popular (emoji_query query) o) := by
        rcases List.mem_append.mp hCD with hC | hD
        · have hm := (prioritise_realm_emojis_perm _).mem_iff.mp hC
          exact (triage_none_perm _ _ _).mem_iff.mp (List.mem_append.mpr (Or.inl hm))
        · have hm := (prioritise_realm_emojis_perm _).mem_iff.mp hD
          exact (triage_none_perm _ _ _).mem_iff.mp (List.mem_append.mpr (Or.inr hm))
      exact hwo e (List.mem_filter.mp hothers).1
  have hmain : sort_emojis objs query
      = dedup_emojis (realm_emoji_names objs) []
          (sorted_results_with_possible_duplicates objs query) := rfl
  rw [hmain, hsorted]
  exact dedup_split_names (realm_emoji_names objs) (emoji_query query) _ _ hA hE

/-- C10: the ranked concatenation built inside `sort_emojis` is a permutation
of the input; the de-duplication pass only selects a sublist of it; hence the
output contains only input elements and emits no input occurrence more often
than it appears in the input. -/
theorem sort_emojis_no_invention (objs : List Emoji) (query : String) :
    (sorted_results_with_possible_duplicates objs query).Perm objs
    ∧ (sort_emojis objs query).Sublist (sorted_results_with_possible_duplicates objs query)
    ∧ ∀ e : Emoji, (sort_emojis objs query).count e ≤ objs.count e := by
  refine ⟨sorted_results_perm objs query, dedup_emojis_sublist _ _ _, ?_⟩
  intro e
  calc (sort_emojis objs query).count e
      ≤ (sorted_results_with_possible_duplicates objs query).count e :=
        (dedup_emojis_sublist _ _ _).count_le e
    _ = objs.count e := (sorted_results_perm objs query).count_eq e
